import Mathlib

/-!
Verification of the stock query agent (src/lambda-src/app.py) against its
natural-language specification.

The development shallowly embeds the repository's core: the tiered
real-time price fetch, the historical price fetch and its dict-based
serialization, the two text-in/text-out tool wrappers, the reasoning
loop configuration, and the query service response mapping.  External
effects (the market-data source, the language-model oracle) are passed
in as explicit data.  Python floats are modelled as rationals, Python
exceptions as Except, and the Python dict built by the historical
serializer as an insertion-ordered association list.
-/

/-! ## Python string primitives

The source calls str.strip, str.upper and str.split(",").  These are
modelled structurally over the character list of the string so that the
kernel can evaluate them. -/

/-- Model of Python str.upper (ASCII, as exercised by the program). -/
def pyUpper (s : String) : String := ⟨s.data.map Char.toUpper⟩

/-- Model of Python str.strip: drop whitespace from both ends. -/
def pyStrip (s : String) : String :=
  ⟨((s.data.dropWhile Char.isWhitespace).reverse.dropWhile Char.isWhitespace).reverse⟩

/-- Helper for pySplit: split a character list on a separator.
Mirrors Python str.split in that the empty string yields one empty part. -/
def splitAux (sep : Char) : List Char → List (List Char)
  | [] => [[]]
  | c :: rest =>
    match splitAux sep rest with
    | [] => [[c]]
    | h :: t => if c = sep then [] :: h :: t else (c :: h) :: t

/-- Model of Python str.split(sep) for a single-character separator. -/
def pySplit (s : String) (sep : Char) : List String :=
  (splitAux sep s.data).map (fun l => ⟨l⟩)

/-! ## Rounding

Python round(v, 2) and the f-string rendering to two decimal places are
both modelled as rounding the rational to the nearest hundredth. -/

/-- Round a rational to two decimal places. -/
def round2 (q : ℚ) : ℚ := (round (100 * q) : ℤ) / 100

/-! ## DataFetcher: real-time price (get_realtime_stock_price) -/

/-- The latest-quote field set returned by the data source for a symbol:
the three candidate fields the code reads from stock.info, each possibly
absent (Python None). -/
structure Quote where
  regularMarketPrice : Option ℚ
  currentPrice : Option ℚ
  lastPrice : Option ℚ
deriving DecidableEq

/-- The market data visible to one real-time fetch: the quote field set
(none models the info lookup itself raising), and the closing-price
series of the 1-minute and 5-minute intraday history calls (none models
the history call raising, some [] an empty frame). -/
structure MarketData where
  info : Option Quote
  hist1m : Option (List ℚ)
  hist5m : Option (List ℚ)
deriving DecidableEq

/-- Python truthiness of an optional float: None and 0.0 are falsy. -/
def pyTruthy (o : Option ℚ) : Bool :=
  match o with
  | none => false
  | some x => x ≠ 0

/-- Python or on optional floats: the left operand if truthy, else the
right operand. -/
def pyOr (a b : Option ℚ) : Option ℚ := if pyTruthy a then a else b

/-- The tier-1 candidate chain of the source, line for line:
stock.info.get(regularMarketPrice) or stock.info.get(currentPrice) or
stock.info.get(lastPrice); none when the info lookup raises. -/
def tier1Price (md : MarketData) : Option ℚ :=
  match md.info with
  | none => none
  | some q => pyOr (pyOr q.regularMarketPrice q.currentPrice) q.lastPrice

/-- The most recent closing value of an intraday history call, none when
the call raised or the frame is empty (hist.empty in the source). -/
def lastClose (h : Option (List ℚ)) : Option ℚ :=
  match h with
  | none => none
  | some l => l.getLast?

/-- Which fallback tier produced the price; the source logs a distinct
message per tier. -/
inductive Tier
  | info
  | hist1m
  | hist5m
deriving DecidableEq

/-- The successful result of a real-time fetch: the normalized symbol and
the price rendered to two decimal places, tagged with the producing tier. -/
structure PriceResult where
  symbol : String
  price : ℚ
  tier : Tier
deriving DecidableEq

/-- The error taxonomy raised by the two DataFetcher operations. -/
inductive FetchError
  | dataUnavailable (symbol : String)
  | noHistoricalData (symbol period interval : String)
deriving DecidableEq

/-- The exception message texts of the source. -/
def fetchErrMsg : FetchError → String
  | .dataUnavailable s =>
      "Failed to fetch price for " ++ s ++ ": Could not fetch price for " ++ s ++
        " using any method"
  | .noHistoricalData s p i =>
      "No historical data available for " ++ s ++ " with period " ++ p ++
        " and interval " ++ i

/-- Embedding of get_realtime_stock_price: normalize the symbol, try the
quote field chain, then 1-minute history, then 5-minute history, and
raise dataUnavailable when all three yield nothing. -/
def get_realtime_stock_price (symbol : String) (md : MarketData) :
    Except FetchError PriceResult :=
  let sym := pyUpper (pyStrip symbol)
  match tier1Price md with
  | some p => .ok ⟨sym, round2 p, .info⟩
  | none =>
    match lastClose md.hist1m with
    | some p => .ok ⟨sym, round2 p, .hist1m⟩
    | none =>
      match lastClose md.hist5m with
      | some p => .ok ⟨sym, round2 p, .hist5m⟩
      | none => .error (.dataUnavailable sym)

/-- Render a rational to a two-decimal string, modelling the f-string
formatting of the source. -/
def fmt2 (q : ℚ) : String :=
  let c : ℤ := round (100 * q)
  let r : ℕ := c.natAbs % 100
  (if c < 0 then "-" else "") ++ toString (c.natAbs / 100) ++ "." ++
    (if r < 10 then "0" ++ toString r else toString r)

/-- The success message of the real-time tool. -/
def renderPrice (r : PriceResult) : String :=
  "Current price of " ++ r.symbol ++ " is $" ++ fmt2 r.price

/-- Embedding of get_realtime_stock_price_wrapped: strip the raw input,
delegate, and convert any exception into an error observation string.
The Except layer of the result models the Python call raising past the
tool boundary; the catch-all handler returns normally, so the wrapper
only ever produces ok. -/
def get_realtime_stock_price_wrapped (input : String) (md : MarketData) :
    Except String String :=
  match get_realtime_stock_price (pyStrip input) md with
  | .ok r => .ok (renderPrice r)
  | .error e => .ok ("Error getting real-time price: " ++ fetchErrMsg e)

/-! ## DataFetcher: historical prices (get_historical_stock_price) -/

/-- A sample timestamp of the historical series: a calendar date (day,
chronologically ordered) and a time within the day.  str(k.date()) on a
timestamp keeps only the day. -/
structure Ts where
  day : ℕ
  tod : ℕ
deriving DecidableEq

/-- Insertion into a Python dict modelled as an association list: an
existing key keeps its position and takes the new value, a new key is
appended. -/
def pyDictInsert (m : List (ℕ × ℚ)) (k : ℕ) (v : ℚ) : List (ℕ × ℚ) :=
  if (List.lookup k m).isSome then m.map (fun p => if p.1 = k then (k, v) else p)
  else m ++ [(k, v)]

/-- Embedding of the dict comprehension of the source:
str(k.date()) mapsto round(v, 2) over the closing series, built left to
right with Python dict semantics. -/
def formattedData (hist : List (Ts × ℚ)) : List (ℕ × ℚ) :=
  hist.foldl (fun m s => pyDictInsert m s.1.day (round2 s.2)) []

/-- The keys of the modelled dict, in insertion order. -/
def keysOf (m : List (ℕ × ℚ)) : List ℕ := m.map Prod.fst

/-- The structured record serialized by get_historical_stock_price. -/
structure HistResult where
  symbol : String
  period : String
  interval : String
  data_points : ℕ
  first_date : ℕ
  last_date : ℕ
  first_price : ℚ
  last_price : ℚ
  data : List (ℕ × ℚ)
deriving DecidableEq

/-- Embedding of get_historical_stock_price: raise noHistoricalData on an
empty series, otherwise build the formatted dict and the summary fields
min/max over its keys with the values at those keys. -/
def get_historical_stock_price (symbol period interval : String)
    (hist : List (Ts × ℚ)) : Except FetchError HistResult :=
  if hist.isEmpty then .error (.noHistoricalData symbol period interval)
  else
    let fd := formattedData hist
    let firstD := ((keysOf fd).min?).getD 0
    let lastD := ((keysOf fd).max?).getD 0
    .ok { symbol := pyUpper symbol
          period := period
          interval := interval
          data_points := fd.length
          first_date := firstD
          last_date := lastD
          first_price := (List.lookup firstD fd).getD 0
          last_price := (List.lookup lastD fd).getD 0
          data := fd }

/-- Canonical text encoding of one date mapping entry. -/
def renderEntry (e : ℕ × ℚ) : String := toString e.1 ++ ": " ++ fmt2 e.2

/-- Canonical text encoding of a historical result, modelling json.dumps
of the record. -/
def renderHist (r : HistResult) : String :=
  "symbol: " ++ r.symbol ++ ", period: " ++ r.period ++ ", interval: " ++
    r.interval ++ ", data_points: " ++ toString r.data_points ++
    ", first_date: " ++ toString r.first_date ++ ", last_date: " ++
    toString r.last_date ++ ", first_price: " ++ fmt2 r.first_price ++
    ", last_price: " ++ fmt2 r.last_price ++ ", data: " ++
    String.intercalate "; " (r.data.map renderEntry)

/-- The message of the Python unpacking error raised when split(",") does
not yield exactly three parts. -/
def unpackMsg (n : ℕ) : String :=
  if n < 3 then "not enough values to unpack (expected 3, got " ++ toString n ++ ")"
  else "too many values to unpack (expected 3)"

/-- The delegated call of the historical tool: fetch for the parsed
triple and convert a raised fetch error into the error observation
string of the catch-all handler. -/
def histDelegate (s p i : String) (hist : List (Ts × ℚ)) : Except String String :=
  match get_historical_stock_price s p i hist with
  | .ok r => .ok (renderHist r)
  | .error e => .ok ("Error parsing input: " ++ fetchErrMsg e)

/-- Embedding of get_historical_stock_price_wrapped: split the raw input
on commas, unpack exactly three parts, strip each, fetch the series for
the parsed triple from the data source src, and convert any exception
(unpacking or fetch) into an error observation string. -/
def get_historical_stock_price_wrapped (input : String)
    (src : String → String → String → List (Ts × ℚ)) : Except String String :=
  match pySplit input ',' with
  | [s, p, i] =>
    histDelegate (pyStrip s) (pyStrip p) (pyStrip i) (src (pyStrip s) (pyStrip p) (pyStrip i))
  | parts => .ok ("Error parsing input: " ++ unpackMsg parts.length)

/-! ## ReasoningLoop

Modelled from the spec: the think/act/observe loop itself lives in the
external agent-executor library; the repository only configures it
(max_iterations = 5, handle_parsing_errors = True, the two registered
tools).  The oracle is a function from the accumulated step history to
its parsed output; malformed output and unknown tool names are
recoverable, consume one iteration, and are fed back as observations. -/

/-- Modelled from the spec: parsed oracle output (the parser itself
lives in the external agent library) - a final answer, an action naming
a tool with its input, or a parse failure of the permissive grammar. -/
inductive ParseResult
  | finalAnswer (a : String)
  | action (name input : String)
  | parseError
deriving DecidableEq

/-- Modelled from the spec: one record of the step history fed back to
the oracle - a completed tool invocation with its observation, or a
recoverable parsing-error observation. -/
inductive StepRec
  | obs (name input observation : String)
  | parseErrObs
deriving DecidableEq

/-- Modelled from the spec: the terminal outcome of a reasoning run. -/
inductive AgentOutcome
  | done (a : String)
  | failed (reason : String)
deriving DecidableEq

/-- Modelled from the spec: the reasoning loop.  Given the oracle, the
tool registry, remaining iterations, the step history and the count of
oracle calls so far, run until a final answer or the iteration budget is
exhausted, returning the outcome, the final history and the number of
steps consumed. -/
def reasoningLoop (oracle : List StepRec → ParseResult)
    (reg : String → Option (String → String)) :
    ℕ → List StepRec → ℕ → AgentOutcome × List StepRec × ℕ
  | 0, hist, steps => (.failed "max iterations exceeded", hist, steps)
  | n + 1, hist, steps =>
    match oracle hist with
    | .finalAnswer a => (.done a, hist, steps + 1)
    | .action name input =>
      match reg name with
      | some f => reasoningLoop oracle reg n (hist ++ [.obs name input (f input)]) (steps + 1)
      | none => reasoningLoop oracle reg n (hist ++ [.parseErrObs]) (steps + 1)
    | .parseError => reasoningLoop oracle reg n (hist ++ [.parseErrObs]) (steps + 1)

/-- The iteration ceiling configured on the agent executor. -/
def max_iterations : ℕ := 5

/-- Modelled from the spec: one full reasoning run, as invoked by the
query service, starting from an empty history. -/
def agentInvoke (oracle : List StepRec → ParseResult)
    (reg : String → Option (String → String)) : AgentOutcome × List StepRec × ℕ :=
  reasoningLoop oracle reg max_iterations [] 0

/-! ## QueryService (process_query) -/

/-- Modelled from the spec: the response mapping returned by the agent
invocation, carrying either the final answer under output or the failure
reason under error. -/
structure InvokeResponse where
  output : Option String
  error : Option String
deriving DecidableEq

/-- Modelled from the spec: how a reasoning outcome appears to the query
service. -/
def invokeResponseOf : AgentOutcome → InvokeResponse
  | .done a => { output := some a, error := none }
  | .failed r => { output := none, error := some r }

/-- The response shape returned to the caller. -/
structure QueryResponse where
  response : String
deriving DecidableEq

/-- A service-level fault (HTTP 500 with a detail message). -/
structure ServiceFault where
  status_code : ℕ
  detail : String
deriving DecidableEq

/-- Model of str(response) for the fallback branch of the source. -/
def rawRender (r : InvokeResponse) : String :=
  "output=" ++ (r.output.getD "None") ++ ", error=" ++ (r.error.getD "None")

/-- Embedding of process_query: an exception from the agent invocation
becomes a 500 fault; otherwise the output field, the Error-prefixed
error field, or the raw rendering becomes the response string. -/
def process_query (invokeResult : Except String InvokeResponse) :
    Except ServiceFault QueryResponse :=
  match invokeResult with
  | .error e => .error { status_code := 500, detail := e }
  | .ok r =>
    match r.output with
    | some o => .ok { response := o }
    | none =>
      match r.error with
      | some m => .ok { response := "Error: " ++ m }
      | none => .ok { response := rawRender r }

/-! ## Lemmas about the modelled Python dict -/

/-- Folding dict insertions over a list of key/value pairs, the shape of
formattedData once the per-sample key/value construction is pushed into
a map. -/
def dictOfPairs (l : List (ℕ × ℚ)) (m : List (ℕ × ℚ)) : List (ℕ × ℚ) :=
  l.foldl (fun acc kv => pyDictInsert acc kv.1 kv.2) m

lemma formattedData_eq_dictOfPairs (hist : List (Ts × ℚ)) :
    formattedData hist = dictOfPairs (hist.map (fun s => (s.1.day, round2 s.2))) [] := by
  unfold formattedData dictOfPairs
  rw [List.foldl_map]

lemma lookup_cons_pair (pk : ℕ) (pv : ℚ) (rest : List (ℕ × ℚ)) (k' : ℕ) :
    List.lookup k' ((pk, pv) :: rest) = if k' = pk then some pv else List.lookup k' rest := by
  by_cases h : k' = pk
  · simp [List.lookup_cons, h]
  · have hb : (k' == pk) = false := beq_eq_false_iff_ne.2 h
    simp [List.lookup_cons, hb, h]

lemma lookup_map_update (m : List (ℕ × ℚ)) (k : ℕ) (v : ℚ) (k' : ℕ) :
    List.lookup k' (m.map (fun p => if p.1 = k then (k, v) else p)) =
      if k' = k then (if (List.lookup k m).isSome then some v else none)
      else List.lookup k' m := by
  induction m with
  | nil => simp [List.lookup]
  | cons p rest ih =>
    obtain ⟨pk, pv⟩ := p
    by_cases hpk : pk = k
    · by_cases hk' : k' = k
      · simp [hpk, hk', lookup_cons_pair, ih]
      · simp [hpk, hk', lookup_cons_pair, ih]
    · by_cases hk2 : k' = pk
      · have hk' : ¬ k' = k := fun h => hpk (hk2 ▸ h)
        simp [hpk, hk2, hk', lookup_cons_pair, ih]
      · by_cases hk' : k' = k
        · rw [hk'] at ih
          have hkpk : ¬ k = pk := fun h => hpk h.symm
          simp [hpk, hk', lookup_cons_pair, ih, hkpk]
          rw [lookup_cons_pair pk pv rest k, if_neg hkpk]
        · simp [hpk, hk2, hk', lookup_cons_pair, ih]

lemma lookup_append_pairs (m₁ m₂ : List (ℕ × ℚ)) (k : ℕ) :
    List.lookup k (m₁ ++ m₂) = (List.lookup k m₁ <|> List.lookup k m₂) := by
  induction m₁ with
  | nil => simp
  | cons p rest ih =>
    obtain ⟨pk, pv⟩ := p
    by_cases h : k = pk <;> simp [lookup_cons_pair, h, ih]

lemma lookup_pyDictInsert (m : List (ℕ × ℚ)) (k : ℕ) (v : ℚ) (k' : ℕ) :
    List.lookup k' (pyDictInsert m k v) =
      if k' = k then some v else List.lookup k' m := by
  unfold pyDictInsert
  by_cases hs : (List.lookup k m).isSome
  · simp [hs, lookup_map_update]
  · simp only [hs, if_false, Bool.false_eq_true, lookup_append_pairs]
    by_cases hk' : k' = k
    · subst hk'
      rw [Option.not_isSome_iff_eq_none.1 hs]
      simp [lookup_cons_pair]
    · simp [lookup_cons_pair, hk']

lemma mem_keysOf_iff (m : List (ℕ × ℚ)) (k : ℕ) :
    k ∈ keysOf m ↔ (List.lookup k m).isSome := by
  induction m with
  | nil => simp [keysOf]
  | cons p rest ih =>
    obtain ⟨pk, pv⟩ := p
    by_cases h : k = pk <;> simp [keysOf, lookup_cons_pair, h, ih]

lemma keysOf_pyDictInsert (m : List (ℕ × ℚ)) (k : ℕ) (v : ℚ) :
    keysOf (pyDictInsert m k v) =
      if (List.lookup k m).isSome then keysOf m else keysOf m ++ [k] := by
  unfold pyDictInsert
  by_cases hs : (List.lookup k m).isSome
  · have hcomp : (Prod.fst ∘ fun p : ℕ × ℚ => if p.1 = k then (k, v) else p) = Prod.fst := by
      funext p
      by_cases h : p.1 = k <;> simp [h]
    simp [hs, keysOf, List.map_map, hcomp]
  · simp [hs, keysOf]

lemma mem_keysOf_pyDictInsert (m : List (ℕ × ℚ)) (k : ℕ) (v : ℚ) (x : ℕ) :
    x ∈ keysOf (pyDictInsert m k v) ↔ x ∈ keysOf m ∨ x = k := by
  rw [keysOf_pyDictInsert]
  by_cases hs : (List.lookup k m).isSome
  · simp only [hs, if_true]
    exact ⟨Or.inl, fun h => h.elim id (fun hx => hx ▸ (mem_keysOf_iff m k).2 hs)⟩
  · simp [hs]

lemma nodup_keysOf_pyDictInsert (m : List (ℕ × ℚ)) (k : ℕ) (v : ℚ)
    (h : (keysOf m).Nodup) : (keysOf (pyDictInsert m k v)).Nodup := by
  rw [keysOf_pyDictInsert]
  by_cases hs : (List.lookup k m).isSome
  · simpa [hs] using h
  · simp only [hs, if_false, Bool.false_eq_true]
    refine h.append (List.nodup_singleton k) ?_
    intro a ha hb
    simp only [List.mem_singleton] at hb
    subst hb
    exact hs ((mem_keysOf_iff m a).1 ha)

lemma mem_pyDictInsert (m : List (ℕ × ℚ)) (k : ℕ) (v : ℚ) (e : ℕ × ℚ)
    (h : e ∈ pyDictInsert m k v) : e ∈ m ∨ e.2 = v := by
  unfold pyDictInsert at h
  by_cases hs : (List.lookup k m).isSome
  · simp only [hs, if_true, List.mem_map] at h
    obtain ⟨p, hp, hpe⟩ := h
    by_cases hpk : p.1 = k
    · right
      rw [← hpe]
      simp [hpk]
    · left
      rw [← hpe]
      simpa [hpk] using hp
  · simp only [hs, if_false, Bool.false_eq_true, List.mem_append, List.mem_singleton] at h
    rcases h with h1 | h2
    · exact Or.inl h1
    · right
      rw [h2]

/-- The value the dict ends up holding for a date: the last sample of
the pair list carrying that key. -/
def lastVal (l : List (ℕ × ℚ)) (d : ℕ) : Option ℚ :=
  ((l.filter (fun p => p.1 = d)).getLast?).map Prod.snd

lemma lastVal_cons (kv : ℕ × ℚ) (rest : List (ℕ × ℚ)) (d : ℕ) :
    lastVal (kv :: rest) d =
      (lastVal rest d <|> if kv.1 = d then some kv.2 else none) := by
  unfold lastVal
  by_cases h : kv.1 = d
  · rw [List.filter_cons_of_pos (by simp [h])]
    rcases hf : (rest.filter (fun p => p.1 = d)) with _ | ⟨a, t⟩
    · simp [hf, h]
    · have hne : (a :: t) ≠ [] := List.cons_ne_nil a t
      obtain ⟨z, hz⟩ := Option.isSome_iff_exists.1 (List.getLast?_isSome.2 hne)
      simp [hf, h, List.getLast?_cons_cons, hz]
  · rw [List.filter_cons_of_neg (by simp [h])]
    simp [h]

lemma lookup_dictOfPairs (l m : List (ℕ × ℚ)) (d : ℕ) :
    List.lookup d (dictOfPairs l m) = (lastVal l d <|> List.lookup d m) := by
  induction l generalizing m with
  | nil => simp [dictOfPairs, lastVal]
  | cons kv rest ih =>
    have hstep : dictOfPairs (kv :: rest) m = dictOfPairs rest (pyDictInsert m kv.1 kv.2) := rfl
    rw [hstep, ih, lookup_pyDictInsert, lastVal_cons]
    by_cases hd : d = kv.1
    · cases hlv : lastVal rest d <;> simp [hd]
    · have hd' : ¬ kv.1 = d := fun h => hd h.symm
      cases hlv : lastVal rest d <;> simp [hd, hd', hlv]

lemma mem_keysOf_dictOfPairs (l m : List (ℕ × ℚ)) (x : ℕ) :
    x ∈ keysOf (dictOfPairs l m) ↔ x ∈ keysOf m ∨ x ∈ l.map Prod.fst := by
  induction l generalizing m with
  | nil => simp [dictOfPairs]
  | cons kv rest ih =>
    have hstep : dictOfPairs (kv :: rest) m = dictOfPairs rest (pyDictInsert m kv.1 kv.2) := rfl
    rw [hstep, ih]
    simp only [mem_keysOf_pyDictInsert, List.map_cons, List.mem_cons]
    tauto

lemma nodup_keysOf_dictOfPairs (l m : List (ℕ × ℚ)) (h : (keysOf m).Nodup) :
    (keysOf (dictOfPairs l m)).Nodup := by
  induction l generalizing m with
  | nil => exact h
  | cons kv rest ih => exact ih _ (nodup_keysOf_pyDictInsert _ _ _ h)

lemma mem_dictOfPairs (l m : List (ℕ × ℚ)) (e : ℕ × ℚ) (h : e ∈ dictOfPairs l m) :
    e ∈ m ∨ e.2 ∈ l.map Prod.snd := by
  induction l generalizing m with
  | nil => exact Or.inl h
  | cons kv rest ih =>
    have hstep : dictOfPairs (kv :: rest) m = dictOfPairs rest (pyDictInsert m kv.1 kv.2) := rfl
    rw [hstep] at h
    rcases ih _ h with hm | hr
    · rcases mem_pyDictInsert _ _ _ _ hm with h1 | h2
      · exact Or.inl h1
      · right
        simp [h2]
    · right
      simp [hr]

lemma length_dictOfPairs (l : List (ℕ × ℚ)) :
    (dictOfPairs l []).length = (l.map Prod.fst).dedup.length := by
  have hnd : (keysOf (dictOfPairs l [])).Nodup := nodup_keysOf_dictOfPairs l [] (by simp [keysOf])
  have h2 : (keysOf (dictOfPairs l [])).toFinset = (l.map Prod.fst).toFinset := by
    ext x
    rw [List.mem_toFinset, List.mem_toFinset, mem_keysOf_dictOfPairs]
    simp [keysOf]
  calc (dictOfPairs l []).length
      = (keysOf (dictOfPairs l [])).length := (List.length_map _ _).symm
    _ = (keysOf (dictOfPairs l [])).dedup.length := by rw [hnd.dedup]
    _ = (keysOf (dictOfPairs l [])).toFinset.card := (List.card_toFinset _).symm
    _ = ((l.map Prod.fst).toFinset).card := by rw [h2]
    _ = (l.map Prod.fst).dedup.length := List.card_toFinset _

lemma sorted_keysOf_dictOfPairs (l : List (ℕ × ℚ)) :
    ∀ m : List (ℕ × ℚ), (keysOf m).Sorted (· < ·) →
      (∀ x ∈ keysOf m, ∀ y ∈ l.map Prod.fst, x ≤ y) →
      (l.map Prod.fst).Sorted (· ≤ ·) →
      (keysOf (dictOfPairs l m)).Sorted (· < ·) := by
  induction l with
  | nil =>
    intro m hm _ _
    exact hm
  | cons kv rest ih =>
    intro m hm hcross hl
    have hstep : dictOfPairs (kv :: rest) m = dictOfPairs rest (pyDictInsert m kv.1 kv.2) := rfl
    rw [hstep]
    rw [List.map_cons] at hl
    have hl' : (rest.map Prod.fst).Sorted (· ≤ ·) := (List.sorted_cons.1 hl).2
    have hhead : ∀ y ∈ rest.map Prod.fst, kv.1 ≤ y := (List.sorted_cons.1 hl).1
    apply ih
    · rw [keysOf_pyDictInsert]
      by_cases hs : (List.lookup kv.1 m).isSome
      · simpa [hs] using hm
      · simp only [hs, if_false, Bool.false_eq_true]
        show List.Pairwise (· < ·) (keysOf m ++ [kv.1])
        refine List.pairwise_append.2 ⟨hm, List.pairwise_singleton _ _, ?_⟩
        intro a ha b hb
        simp only [List.mem_singleton] at hb
        subst hb
        have hle : a ≤ kv.1 := hcross a ha kv.1 (by simp)
        have hne : a ≠ kv.1 := by
          intro he
          exact hs ((mem_keysOf_iff m kv.1).1 (he ▸ ha))
        exact lt_of_le_of_ne hle hne
    · intro x hx y hy
      rcases (mem_keysOf_pyDictInsert m kv.1 kv.2 x).1 hx with h1 | h2
      · refine hcross x h1 y ?_
        simp only [List.map_cons, List.mem_cons]
        exact Or.inr hy
      · subst h2
        exact hhead y hy
    · exact hl'

lemma dictOfPairs_ne_nil (l : List (ℕ × ℚ)) (hl : l ≠ []) : dictOfPairs l [] ≠ [] := by
  obtain ⟨kv, hkv⟩ := List.exists_mem_of_ne_nil l hl
  intro hcontra
  have hx : kv.1 ∈ keysOf (dictOfPairs l []) := by
    rw [mem_keysOf_dictOfPairs]
    exact Or.inr (List.mem_map_of_mem Prod.fst hkv)
  rw [hcontra] at hx
  simp [keysOf] at hx

lemma round2_round2 (q : ℚ) : round2 (round2 q) = round2 q := by
  unfold round2
  have h : (100 : ℚ) * (((round (100 * q) : ℤ) : ℚ) / 100) = ((round (100 * q) : ℤ) : ℚ) := by
    rw [mul_comm]
    exact div_mul_cancel₀ _ (by norm_num)
  rw [h, round_intCast]

lemma length_formattedData (hist : List (Ts × ℚ)) :
    (formattedData hist).length = (hist.map (fun x => x.1.day)).dedup.length := by
  rw [formattedData_eq_dictOfPairs, length_dictOfPairs, List.map_map]
  have hcomp : (Prod.fst ∘ fun s : Ts × ℚ => (s.1.day, round2 s.2)) =
      fun x : Ts × ℚ => x.1.day := rfl
  rw [hcomp]

lemma lookup_formattedData (hist : List (Ts × ℚ)) (d : ℕ) :
    List.lookup d (formattedData hist) =
      ((hist.filter (fun x => x.1.day = d)).getLast?).map (fun x => round2 x.2) := by
  rw [formattedData_eq_dictOfPairs, lookup_dictOfPairs]
  have hnil : List.lookup d ([] : List (ℕ × ℚ)) = none := rfl
  rw [hnil, Option.orElse_none]
  unfold lastVal
  rw [List.filter_map, List.getLast?_map, Option.map_map]
  rfl

lemma round2_fix_of_mem_formattedData (hist : List (Ts × ℚ)) (e : ℕ × ℚ)
    (h : e ∈ formattedData hist) : round2 e.2 = e.2 := by
  rw [formattedData_eq_dictOfPairs] at h
  rcases mem_dictOfPairs _ _ _ h with h1 | h2
  · simp at h1
  · rw [List.map_map] at h2
    simp only [List.mem_map, Function.comp] at h2
    obtain ⟨s, _, hs⟩ := h2
    rw [← hs, round2_round2]

lemma sorted_keysOf_formattedData (hist : List (Ts × ℚ))
    (hsorted : (hist.map (fun x => x.1.day)).Sorted (· ≤ ·)) :
    (keysOf (formattedData hist)).Sorted (· < ·) := by
  rw [formattedData_eq_dictOfPairs]
  apply sorted_keysOf_dictOfPairs
  · simp [keysOf]
  · intro x hx
    simp [keysOf] at hx
  · rw [List.map_map]
    exact hsorted

lemma formattedData_ne_nil (hist : List (Ts × ℚ)) (hne : hist ≠ []) :
    formattedData hist ≠ [] := by
  rw [formattedData_eq_dictOfPairs]
  apply dictOfPairs_ne_nil
  simp [hne]

lemma min?_mem_nat (l : List ℕ) (hl : l ≠ []) : ∃ k, l.min? = some k ∧ k ∈ l := by
  rcases hmin : l.min? with _ | k
  · exact absurd (List.min?_eq_none_iff.1 hmin) hl
  · exact ⟨k, rfl, List.min?_mem (fun a b => min_choice a b) hmin⟩

lemma max?_mem_nat (l : List ℕ) (hl : l ≠ []) : ∃ k, l.max? = some k ∧ k ∈ l := by
  rcases hmax : l.max? with _ | k
  · exact absurd (List.max?_eq_none_iff.1 hmax) hl
  · exact ⟨k, rfl, List.max?_mem (fun a b => max_choice a b) hmax⟩

/-! ## Claim-facing definitions following the spec's words -/

/-- Definition following the spec's words (claim C1): the value of the
first non-null candidate field in the ordered candidate list. -/
def firstNonNullCandidate (q : Quote) : Option ℚ :=
  match q.regularMarketPrice with
  | some v => some v
  | none =>
    match q.currentPrice with
    | some v => some v
    | none => q.lastPrice

/-- The value the code's candidate chain actually selects: the first
truthy (non-null and nonzero) candidate field in order. -/
def firstTruthyCandidate (q : Quote) : Option ℚ :=
  if pyTruthy q.regularMarketPrice then q.regularMarketPrice
  else if pyTruthy q.currentPrice then q.currentPrice
  else if pyTruthy q.lastPrice then q.lastPrice
  else none

/-! ## Claims about the real-time fetch -/

/-- Claim C1, counterexample: with quote fields regularMarketPrice = 0,
currentPrice = 5, lastPrice absent, the first non-null candidate field
holds 0, yet get_realtime_stock_price returns 5: Python or skips the
falsy zero, so the claim as stated (first non-null wins) is false. -/
theorem C1_counterexample :
    firstNonNullCandidate ⟨some 0, some 5, none⟩ = some 0 ∧
    get_realtime_stock_price "AAPL" ⟨some ⟨some 0, some 5, none⟩, none, none⟩ =
      .ok ⟨"AAPL", round2 5, Tier.info⟩ ∧
    round2 5 ≠ round2 0 := by
  refine ⟨rfl, ?_, ?_⟩
  · have h1 : tier1Price ⟨some ⟨some 0, some 5, none⟩, none, none⟩ = some 5 := by
      norm_num [tier1Price, pyOr, pyTruthy]
    have h2 : pyUpper (pyStrip "AAPL") = "AAPL" := by decide
    simp only [get_realtime_stock_price, h1, h2]
  · norm_num [round2, round_eq]

/-- Claim C1 (amended): for every symbol whose latest-quote field set
contains a truthy (non-null, nonzero) value in one of the ordered
candidate fields, get_realtime_stock_price returns the value of the
first such truthy candidate field, rounded to two decimal places, paired
with the trimmed uppercased symbol, from tier 1 without invoking either
history fallback tier. -/
theorem C1_theorem (sym : String) (md : MarketData) (q : Quote) (v : ℚ)
    (hinfo : md.info = some q)
    (hv : firstTruthyCandidate q = some v) :
    get_realtime_stock_price sym md =
      .ok ⟨pyUpper (pyStrip sym), round2 v, Tier.info⟩ := by
  have ht1 : tier1Price md = some v := by
    unfold firstTruthyCandidate at hv
    simp only [tier1Price, hinfo]
    by_cases h1 : pyTruthy q.regularMarketPrice
    · rw [if_pos h1] at hv
      rw [hv] at h1
      simp [pyOr, h1, hv]
    · rw [if_neg h1] at hv
      by_cases h2 : pyTruthy q.currentPrice
      · rw [if_pos h2] at hv
        rw [hv] at h2
        simp [pyOr, h1, h2, hv]
      · rw [if_neg h2] at hv
        by_cases h3 : pyTruthy q.lastPrice
        · rw [if_pos h3] at hv
          simp [pyOr, h1, h2, h3, hv]
        · rw [if_neg h3] at hv
          exact absurd hv (by simp)
  simp only [get_realtime_stock_price, ht1]

/-- Witness for C1: a quote whose currentPrice field holds 150.25. -/
theorem C1_witness :
    get_realtime_stock_price " aapl" ⟨some ⟨none, some (15025/100), none⟩, none, none⟩ =
      .ok ⟨pyUpper (pyStrip " aapl"), round2 (15025/100), Tier.info⟩ :=
  C1_theorem " aapl" _ _ (15025/100) rfl (by norm_num [firstTruthyCandidate, pyTruthy])

/-- Claim C2: when the quote lookup yields no candidate value and both
intraday history tiers yield nothing, get_realtime_stock_price fails
with dataUnavailable naming the normalized symbol, and no price result
is returned. -/
theorem C2_theorem (sym : String) (md : MarketData)
    (h1 : ∀ q, md.info = some q →
      q.regularMarketPrice = none ∧ q.currentPrice = none ∧ q.lastPrice = none)
    (h2 : ∀ l, md.hist1m = some l → l = [])
    (h3 : ∀ l, md.hist5m = some l → l = []) :
    get_realtime_stock_price sym md =
      .error (.dataUnavailable (pyUpper (pyStrip sym))) := by
  have ht1 : tier1Price md = none := by
    rcases hq : md.info with _ | q
    · simp [tier1Price, hq]
    · obtain ⟨ha, hb, hc⟩ := h1 q hq
      simp [tier1Price, hq, pyOr, pyTruthy, ha, hb, hc]
  have hl1 : lastClose md.hist1m = none := by
    rcases hh : md.hist1m with _ | l
    · rfl
    · rw [h2 l hh]
      rfl
  have hl5 : lastClose md.hist5m = none := by
    rcases hh : md.hist5m with _ | l
    · rfl
    · rw [h3 l hh]
      rfl
  simp only [get_realtime_stock_price, ht1, hl1, hl5]

/-- Witness for C2: the info lookup raises and both history frames are
empty or raising. -/
theorem C2_witness :
    get_realtime_stock_price " msft " ⟨none, some [], none⟩ =
      .error (.dataUnavailable (pyUpper (pyStrip " msft "))) :=
  C2_theorem " msft " ⟨none, some [], none⟩
    (fun _ h => Option.noConfusion h)
    (fun _ h => (Option.some.inj h).symm)
    (fun _ h => Option.noConfusion h)

/-! ## Claims about the historical fetch -/

/-- Claim C6: for every symbol, period and interval, an empty series from
the data source makes get_historical_stock_price fail with
noHistoricalData naming the symbol, period and interval. -/
theorem C6_theorem (s p i : String) :
    get_historical_stock_price s p i [] = .error (.noHistoricalData s p i) := rfl

lemma get_historical_run (s p i : String) (hist : List (Ts × ℚ)) (hne : hist ≠ []) :
    get_historical_stock_price s p i hist = .ok
      { symbol := pyUpper s
        period := p
        interval := i
        data_points := (formattedData hist).length
        first_date := ((keysOf (formattedData hist)).min?).getD 0
        last_date := ((keysOf (formattedData hist)).max?).getD 0
        first_price :=
          (List.lookup (((keysOf (formattedData hist)).min?).getD 0) (formattedData hist)).getD 0
        last_price :=
          (List.lookup (((keysOf (formattedData hist)).max?).getD 0) (formattedData hist)).getD 0
        data := formattedData hist } := by
  have hempty : hist.isEmpty = false := by
    cases hist with
    | nil => exact absurd rfl hne
    | cons a t => rfl
  simp only [get_historical_stock_price, hempty, Bool.false_eq_true, if_false]

/-- Claim C10: when samples share a calendar date, the serialized
mapping keeps only the last sample for each date (rounded), and
data_points counts distinct calendar dates rather than samples. -/
theorem C10_theorem (s p i : String) (hist : List (Ts × ℚ)) (hne : hist ≠ []) :
    ∃ r, get_historical_stock_price s p i hist = .ok r ∧
      r.data_points = (hist.map (fun x => x.1.day)).dedup.length ∧
      ∀ d, List.lookup d r.data =
        ((hist.filter (fun x => x.1.day = d)).getLast?).map (fun x => round2 x.2) := by
  refine ⟨_, get_historical_run s p i hist hne, ?_, ?_⟩
  · exact length_formattedData hist
  · intro d
    exact lookup_formattedData hist d

/-- Witness for C10: three samples, two on the same calendar date. -/
theorem C10_witness :
    ∃ r, get_historical_stock_price "AAPL" "1d" "1m" [(⟨1, 0⟩, 3), (⟨1, 1⟩, 4), (⟨2, 0⟩, 5)] = .ok r ∧
      r.data_points =
        ([(⟨1, 0⟩, 3), (⟨1, 1⟩, 4), (⟨2, 0⟩, 5)].map (fun x : Ts × ℚ => x.1.day)).dedup.length ∧
      ∀ d, List.lookup d r.data =
        (([(⟨1, 0⟩, 3), (⟨1, 1⟩, 4), (⟨2, 0⟩, 5)].filter (fun x : Ts × ℚ => x.1.day = d)).getLast?).map
          (fun x => round2 x.2) :=
  C10_theorem "AAPL" "1d" "1m" _ (by simp)

/-- Claim C5: on a nonempty chronologically ordered series,
get_historical_stock_price succeeds with the symbol uppercased,
data_points equal to the number of mapping entries, the mapping keys
strictly increasing (chronological, unique dates), first_date and
last_date the minimum and maximum keys, first_price and last_price the
mapping's values at those keys, and every price a two-decimal value. -/
theorem C5_theorem (s p i : String) (hist : List (Ts × ℚ)) (hne : hist ≠ [])
    (hsorted : (hist.map (fun x => x.1.day)).Sorted (· ≤ ·)) :
    ∃ r, get_historical_stock_price s p i hist = .ok r ∧
      r.symbol = pyUpper s ∧
      r.data_points = r.data.length ∧
      (keysOf r.data).Sorted (· < ·) ∧
      r.first_date = ((keysOf r.data).min?).getD 0 ∧
      r.last_date = ((keysOf r.data).max?).getD 0 ∧
      List.lookup r.first_date r.data = some r.first_price ∧
      List.lookup r.last_date r.data = some r.last_price ∧
      ∀ e ∈ r.data, round2 e.2 = e.2 := by
  have hkeys_ne : keysOf (formattedData hist) ≠ [] := by
    intro h
    exact formattedData_ne_nil hist hne (List.map_eq_nil_iff.1 h)
  refine ⟨_, get_historical_run s p i hist hne, rfl, rfl,
    sorted_keysOf_formattedData hist hsorted, rfl, rfl, ?_, ?_, ?_⟩
  · obtain ⟨k, hk, hkmem⟩ := min?_mem_nat (keysOf (formattedData hist)) hkeys_ne
    obtain ⟨val, hval⟩ :=
      Option.isSome_iff_exists.1 ((mem_keysOf_iff _ _).1 hkmem)
    simp only [hk, Option.getD_some, hval]
  · obtain ⟨k, hk, hkmem⟩ := max?_mem_nat (keysOf (formattedData hist)) hkeys_ne
    obtain ⟨val, hval⟩ :=
      Option.isSome_iff_exists.1 ((mem_keysOf_iff _ _).1 hkmem)
    simp only [hk, Option.getD_some, hval]
  · intro e he
    exact round2_fix_of_mem_formattedData hist e he

/-- Witness for C5: a two-sample series on distinct dates. -/
theorem C5_witness :
    ∃ r, get_historical_stock_price "ibm" "1mo" "1d" [(⟨1, 0⟩, 3), (⟨2, 0⟩, 7)] = .ok r ∧
      r.symbol = pyUpper "ibm" ∧
      r.data_points = r.data.length ∧
      (keysOf r.data).Sorted (· < ·) ∧
      r.first_date = ((keysOf r.data).min?).getD 0 ∧
      r.last_date = ((keysOf r.data).max?).getD 0 ∧
      List.lookup r.first_date r.data = some r.first_price ∧
      List.lookup r.last_date r.data = some r.last_price ∧
      ∀ e ∈ r.data, round2 e.2 = e.2 :=
  C5_theorem "ibm" "1mo" "1d" _ (by simp) (by simp [List.sorted_cons])

/-! ## Claims about the tool boundary -/

lemma histDelegate_ok (s p i : String) (hist : List (Ts × ℚ)) :
    ∃ out, histDelegate s p i hist = Except.ok out := by
  unfold histDelegate
  cases get_historical_stock_price s p i hist <;> exact ⟨_, rfl⟩

lemma histDelegate_error (s p i : String) (hist : List (Ts × ℚ)) (e : FetchError)
    (h : get_historical_stock_price s p i hist = Except.error e) :
    histDelegate s p i hist = Except.ok ("Error parsing input: " ++ fetchErrMsg e) := by
  unfold histDelegate
  rw [h]

/-- Claim C3: both registered tools return a string observation for
every input and never raise past their boundary; internal failures are
converted into descriptive error text. -/
theorem C3_theorem (input : String) (md : MarketData)
    (src : String → String → String → List (Ts × ℚ)) :
    (∃ s, get_realtime_stock_price_wrapped input md = Except.ok s) ∧
    (∃ s, get_historical_stock_price_wrapped input src = Except.ok s) ∧
    (∀ e, get_realtime_stock_price (pyStrip input) md = Except.error e →
      get_realtime_stock_price_wrapped input md =
        Except.ok ("Error getting real-time price: " ++ fetchErrMsg e)) ∧
    (∀ sy pe iv e, pySplit input ',' = [sy, pe, iv] →
      get_historical_stock_price (pyStrip sy) (pyStrip pe) (pyStrip iv)
        (src (pyStrip sy) (pyStrip pe) (pyStrip iv)) = Except.error e →
      get_historical_stock_price_wrapped input src =
        Except.ok ("Error parsing input: " ++ fetchErrMsg e)) := by
  refine ⟨?_, ?_, ?_, ?_⟩
  · unfold get_realtime_stock_price_wrapped
    cases get_realtime_stock_price (pyStrip input) md <;> exact ⟨_, rfl⟩
  · unfold get_historical_stock_price_wrapped
    rcases hsp : pySplit input ',' with _ | ⟨a, _ | ⟨b, _ | ⟨c, _ | d⟩⟩⟩
    · exact ⟨_, rfl⟩
    · exact ⟨_, rfl⟩
    · exact ⟨_, rfl⟩
    · exact histDelegate_ok (pyStrip a) (pyStrip b) (pyStrip c) _
    · exact ⟨_, rfl⟩
  · intro e he
    unfold get_realtime_stock_price_wrapped
    rw [he]
  · intro sy pe iv e hsp hfetch
    unfold get_historical_stock_price_wrapped
    rw [hsp]
    exact histDelegate_error _ _ _ _ _ hfetch

/-- Witness for C3: a concrete input, an empty market-data view and an
empty data source. -/
theorem C3_witness :
    (∃ s, get_realtime_stock_price_wrapped "X" ⟨none, none, none⟩ = Except.ok s) ∧
    (∃ s, get_historical_stock_price_wrapped "X" (fun _ _ _ => []) = Except.ok s) ∧
    (∀ e, get_realtime_stock_price (pyStrip "X") ⟨none, none, none⟩ = Except.error e →
      get_realtime_stock_price_wrapped "X" ⟨none, none, none⟩ =
        Except.ok ("Error getting real-time price: " ++ fetchErrMsg e)) ∧
    (∀ sy pe iv e, pySplit "X" ',' = [sy, pe, iv] →
      get_historical_stock_price (pyStrip sy) (pyStrip pe) (pyStrip iv) [] = Except.error e →
      get_historical_stock_price_wrapped "X" (fun _ _ _ => []) =
        Except.ok ("Error parsing input: " ++ fetchErrMsg e)) :=
  C3_theorem "X" ⟨none, none, none⟩ (fun _ _ _ => [])

/-- Claim C4: the historical tool input AAPL,1mo,1d parses into
symbol AAPL, period 1mo, interval 1d and is delegated as such; any input
whose comma split does not yield exactly three parts produces the
unpacking-error observation string instead of raising. -/
theorem C4_theorem (src : String → String → String → List (Ts × ℚ)) (input : String)
    (hbad : (pySplit input ',').length ≠ 3) :
    pySplit "AAPL,1mo,1d" ',' = ["AAPL", "1mo", "1d"] ∧
    get_historical_stock_price_wrapped "AAPL,1mo,1d" src =
      histDelegate "AAPL" "1mo" "1d" (src "AAPL" "1mo" "1d") ∧
    get_historical_stock_price_wrapped input src =
      .ok ("Error parsing input: " ++ unpackMsg (pySplit input ',').length) := by
  have hsplit : pySplit "AAPL,1mo,1d" ',' = ["AAPL", "1mo", "1d"] := by decide
  have hstrip : pyStrip "AAPL" = "AAPL" ∧ pyStrip "1mo" = "1mo" ∧ pyStrip "1d" = "1d" := by decide
  refine ⟨hsplit, ?_, ?_⟩
  · unfold get_historical_stock_price_wrapped
    rw [hsplit]
    show histDelegate (pyStrip "AAPL") (pyStrip "1mo") (pyStrip "1d")
      (src (pyStrip "AAPL") (pyStrip "1mo") (pyStrip "1d")) = _
    rw [hstrip.1, hstrip.2.1, hstrip.2.2]
  · unfold get_historical_stock_price_wrapped
    rcases hsp : pySplit input ',' with _ | ⟨a, _ | ⟨b, _ | ⟨c, _ | d⟩⟩⟩
    · rfl
    · rfl
    · rfl
    · rw [hsp] at hbad
      exact absurd rfl hbad
    · rfl

/-- Witness for C4: the no-comma input AAPL has a one-part split. -/
theorem C4_witness :
    pySplit "AAPL,1mo,1d" ',' = ["AAPL", "1mo", "1d"] ∧
    get_historical_stock_price_wrapped "AAPL,1mo,1d" (fun _ _ _ => []) =
      histDelegate "AAPL" "1mo" "1d" [] ∧
    get_historical_stock_price_wrapped "AAPL" (fun _ _ _ => []) =
      .ok ("Error parsing input: " ++ unpackMsg (pySplit "AAPL" ',').length) :=
  C4_theorem (fun _ _ _ => []) "AAPL" (by decide)

/-! ## Claims about the reasoning loop and the query service -/

lemma reasoningLoop_steps_le (oracle : List StepRec → ParseResult)
    (reg : String → Option (String → String)) :
    ∀ n hist steps, (reasoningLoop oracle reg n hist steps).2.2 ≤ steps + n := by
  intro n
  induction n with
  | zero =>
    intro hist steps
    simp [reasoningLoop]
  | succ n ih =>
    intro hist steps
    cases ho : oracle hist with
    | finalAnswer a =>
      simp [reasoningLoop, ho]
    | action name input =>
      cases hr : reg name with
      | some f =>
        have h := ih (hist ++ [.obs name input (f input)]) (steps + 1)
        simp only [reasoningLoop, ho, hr]
        omega
      | none =>
        have h := ih (hist ++ [.parseErrObs]) (steps + 1)
        simp only [reasoningLoop, ho, hr]
        omega
    | parseError =>
      have h := ih (hist ++ [.parseErrObs]) (steps + 1)
      simp only [reasoningLoop, ho]
      omega

lemma reasoningLoop_no_final (oracle : List StepRec → ParseResult)
    (reg : String → Option (String → String))
    (hnf : ∀ hist a, oracle hist ≠ ParseResult.finalAnswer a) :
    ∀ n hist steps,
      (reasoningLoop oracle reg n hist steps).1 = AgentOutcome.failed "max iterations exceeded" ∧
      (reasoningLoop oracle reg n hist steps).2.2 = steps + n := by
  intro n
  induction n with
  | zero =>
    intro hist steps
    simp [reasoningLoop]
  | succ n ih =>
    intro hist steps
    cases ho : oracle hist with
    | finalAnswer a => exact absurd ho (hnf hist a)
    | action name input =>
      cases hr : reg name with
      | some f =>
        have h := ih (hist ++ [.obs name input (f input)]) (steps + 1)
        simp only [reasoningLoop, ho, hr]
        exact ⟨h.1, by omega⟩
      | none =>
        have h := ih (hist ++ [.parseErrObs]) (steps + 1)
        simp only [reasoningLoop, ho, hr]
        exact ⟨h.1, by omega⟩
    | parseError =>
      have h := ih (hist ++ [.parseErrObs]) (steps + 1)
      simp only [reasoningLoop, ho]
      exact ⟨h.1, by omega⟩

/-- Claim C7: the loop consumes at most 5 oracle steps; whenever the
oracle emits a final answer with budget remaining the loop returns it;
and an oracle that never emits a final answer makes the run stop after
exactly 5 steps with the structured max-iterations failure. -/
theorem C7_theorem (oracle : List StepRec → ParseResult)
    (reg : String → Option (String → String)) :
    (agentInvoke oracle reg).2.2 ≤ 5 ∧
    (∀ hist n steps a, oracle hist = ParseResult.finalAnswer a →
      (reasoningLoop oracle reg (n + 1) hist steps).1 = AgentOutcome.done a) ∧
    ((∀ hist a, oracle hist ≠ ParseResult.finalAnswer a) →
      (agentInvoke oracle reg).1 = AgentOutcome.failed "max iterations exceeded" ∧
      (agentInvoke oracle reg).2.2 = 5) := by
  refine ⟨?_, ?_, ?_⟩
  · have h := reasoningLoop_steps_le oracle reg 5 [] 0
    simpa [agentInvoke, max_iterations] using h
  · intro hist n steps a ho
    simp [reasoningLoop, ho]
  · intro hnf
    have h := reasoningLoop_no_final oracle reg hnf 5 [] 0
    exact ⟨h.1, h.2⟩

/-- Witness for C7: the oracle that always reports a parse error. -/
theorem C7_witness :
    (agentInvoke (fun _ => ParseResult.parseError) (fun _ => none)).2.2 ≤ 5 ∧
    (∀ hist n steps a,
      (fun _ : List StepRec => ParseResult.parseError) hist = ParseResult.finalAnswer a →
      (reasoningLoop (fun _ => ParseResult.parseError) (fun _ => none) (n + 1) hist steps).1 =
        AgentOutcome.done a) ∧
    ((∀ hist a,
      (fun _ : List StepRec => ParseResult.parseError) hist ≠ ParseResult.finalAnswer a) →
      (agentInvoke (fun _ => ParseResult.parseError) (fun _ => none)).1 =
        AgentOutcome.failed "max iterations exceeded" ∧
      (agentInvoke (fun _ => ParseResult.parseError) (fun _ => none)).2.2 = 5) :=
  C7_theorem (fun _ => ParseResult.parseError) (fun _ => none)

/-- Claim C8: malformed oracle output, or an action naming a tool not in
the registry, consumes one iteration, appends a recoverable observation
to the history, and loops back to thinking; a run whose first output is
malformed can still end done on a later step. -/
theorem C8_theorem (oracle : List StepRec → ParseResult)
    (reg : String → Option (String → String)) (n : ℕ) (hist : List StepRec) (steps : ℕ) :
    (oracle hist = ParseResult.parseError →
      reasoningLoop oracle reg (n + 1) hist steps =
        reasoningLoop oracle reg n (hist ++ [StepRec.parseErrObs]) (steps + 1)) ∧
    (∀ name input, oracle hist = ParseResult.action name input → reg name = none →
      reasoningLoop oracle reg (n + 1) hist steps =
        reasoningLoop oracle reg n (hist ++ [StepRec.parseErrObs]) (steps + 1)) ∧
    (∀ a, agentInvoke
        (fun h => if h.isEmpty then ParseResult.parseError else ParseResult.finalAnswer a) reg =
      (AgentOutcome.done a, [StepRec.parseErrObs], 2)) := by
  refine ⟨?_, ?_, ?_⟩
  · intro ho
    simp [reasoningLoop, ho]
  · intro name input ho hr
    simp [reasoningLoop, ho, hr]
  · intro a
    rfl

/-- Witness for C8: a run whose step-1 output is malformed and whose
step-2 output is a final answer ends done after two steps. -/
theorem C8_witness :
    ((fun h : List StepRec =>
        if h.isEmpty then ParseResult.parseError else ParseResult.finalAnswer "ok") [] =
          ParseResult.parseError →
      reasoningLoop
          (fun h => if h.isEmpty then ParseResult.parseError else ParseResult.finalAnswer "ok")
          (fun _ => none) (3 + 1) [] 0 =
        reasoningLoop
          (fun h => if h.isEmpty then ParseResult.parseError else ParseResult.finalAnswer "ok")
          (fun _ => none) 3 ([] ++ [StepRec.parseErrObs]) (0 + 1)) ∧
    (∀ name input,
      (fun h : List StepRec =>
        if h.isEmpty then ParseResult.parseError else ParseResult.finalAnswer "ok") [] =
          ParseResult.action name input →
      (fun _ : String => (none : Option (String → String))) name = none →
      reasoningLoop
          (fun h => if h.isEmpty then ParseResult.parseError else ParseResult.finalAnswer "ok")
          (fun _ => none) (3 + 1) [] 0 =
        reasoningLoop
          (fun h => if h.isEmpty then ParseResult.parseError else ParseResult.finalAnswer "ok")
          (fun _ => none) 3 ([] ++ [StepRec.parseErrObs]) (0 + 1)) ∧
    (∀ a, agentInvoke
        (fun h => if h.isEmpty then ParseResult.parseError else ParseResult.finalAnswer a)
        (fun _ => none) =
      (AgentOutcome.done a, [StepRec.parseErrObs], 2)) :=
  C8_theorem
    (fun h => if h.isEmpty then ParseResult.parseError else ParseResult.finalAnswer "ok")
    (fun _ => none) 3 [] 0

/-- Claim C9: the query service always returns a response-shaped value:
a done outcome maps its final answer to the response field, a graceful
failure maps its reason to an Error-prefixed response string, and only
an exception from the agent invocation itself surfaces as a service
fault. -/
theorem C9_theorem :
    (∀ a, process_query (Except.ok (invokeResponseOf (AgentOutcome.done a))) =
      Except.ok { response := a }) ∧
    (∀ r, process_query (Except.ok (invokeResponseOf (AgentOutcome.failed r))) =
      Except.ok { response := "Error: " ++ r }) ∧
    (∀ (oracle : List StepRec → ParseResult) (reg : String → Option (String → String)),
      ∃ resp, process_query (Except.ok (invokeResponseOf (agentInvoke oracle reg).1)) =
        Except.ok resp) ∧
    (∀ e, process_query (Except.error e) =
      Except.error { status_code := 500, detail := e }) := by
  refine ⟨fun a => rfl, fun r => rfl, ?_, fun e => rfl⟩
  intro oracle reg
  cases (agentInvoke oracle reg).1 <;> exact ⟨_, rfl⟩
